import Mathlib

/-!
Shallow embedding of the ToDoList repository's task-list logic.

The repository is a Next.js to-do planner with two relevant variants:
* `src/unnamed/part_001` — a local-storage-only date-grouped planner
  (`Todo` records with numeric ids, all mutations pure in-memory list
  operations); embedded below in namespace `LocalApp`.
* `src/src/app/page.tsx` — a cloud-synced planner backed by a remote row
  store, with a dev-mode branch that uses local storage; embedded below in
  namespace `CloudApp`.  Backend calls are modelled by explicit parameters:
  a `Bool` for calls whose only observable outcome is ok/error, and an
  `Except String TodoRow` for calls that return the updated row
  (`.select(...).single()`); per the backend contract the returned row is
  the row the store now holds.

React `useState` state is modelled as explicit record values
(`CloudApp.AppState`); `setX` calls become functional updates.  Local
storage writes and `console.error` logging have no in-memory effect and
are not part of the state.  Core `String` functions defined by well-founded
recursion do not reduce in the kernel, so JS string primitives
(`trim`, `split("-")`, `Number`, `<`) are modelled by structurally
recursive functions over `List Char` below.
-/

namespace ToDoList

/-- Whitespace test used by the model of JS `String.prototype.trim`
(the whitespace characters that can occur in this app's inputs). -/
def isSpaceChar (c : Char) : Bool :=
  c = ' ' || c = '\t' || c = '\n' || c = '\r'

/-- Model of JS `s.trim()`: strip leading and trailing whitespace. -/
def jsTrim (s : String) : String :=
  ⟨((s.data.dropWhile isSpaceChar).reverse.dropWhile isSpaceChar).reverse⟩

/-- Lexicographic comparison of character lists by code point,
the model of JS `<` on strings. -/
def strLtChars : List Char → List Char → Bool
  | [], [] => false
  | [], _ :: _ => true
  | _ :: _, [] => false
  | a :: as, b :: bs =>
    if a.toNat < b.toNat then true
    else if b.toNat < a.toNat then false
    else strLtChars as bs

/-- Model of JS `a < b` on strings. -/
def strLt (a b : String) : Bool := strLtChars a.data b.data

/-- The `Priority` union type (`"low" | "medium" | "high"`). -/
inductive Priority where
  | low
  | medium
  | high
deriving DecidableEq, Repr

/-! Date helpers shared verbatim by both variants
(`addDays`, page.tsx lines 41-49 = part_001 lines 39-47).
`new Date(y, m-1, d)` followed by `setDate(getDate() + offset)` performs
proleptic-Gregorian calendar arithmetic on the civil date; for in-range
dates (year at least 100) this equals day-number arithmetic, modelled here
with the standard civil-from-days / days-from-civil conversions. -/

/-- Serial day number of the civil date `y-m-d` (counted from 0000-03-01,
valid for `y ≥ 1`, `1 ≤ m ≤ 12`, `d ≥ 1`). -/
def daysFromCivil (y m d : Nat) : Nat :=
  let yAdj := if m ≤ 2 then y - 1 else y
  let era := yAdj / 400
  let yoe := yAdj % 400
  let mp := (m + 9) % 12
  let doy := (153 * mp + 2) / 5 + d - 1
  let doe := yoe * 365 + yoe / 4 - yoe / 100 + doy
  era * 146097 + doe

/-- Civil date `(y, m, d)` of a serial day number (inverse of
`daysFromCivil`). -/
def civilFromDays (z : Nat) : Nat × Nat × Nat :=
  let era := z / 146097
  let doe := z % 146097
  let yoe := (doe - doe / 1460 + doe / 36524 - doe / 146096) / 365
  let y := yoe + era * 400
  let doy := doe - (365 * yoe + yoe / 4 - yoe / 100)
  let mp := (5 * doy + 2) / 153
  let d := doy - (153 * mp + 2) / 5 + 1
  let m := if mp < 10 then mp + 3 else mp - 9
  (if m ≤ 2 then y + 1 else y, m, d)

/-- Split a character list at `'-'` separators
(model of `base.split("-")`); `cur` accumulates the current field. -/
def splitDash (l : List Char) (cur : List Char) : List (List Char) :=
  match l with
  | [] => [cur.reverse]
  | c :: rest =>
    if c = '-' then cur.reverse :: splitDash rest [] else splitDash rest (c :: cur)

/-- Numeric value of a digit string (model of JS `Number` on the
all-digit fields produced by splitting a `YYYY-MM-DD` date). -/
def parseNatChars (l : List Char) : Nat :=
  l.foldl (fun n c => n * 10 + (c.toNat - 48)) 0

/-- Two-digit zero padding (model of `String(n).padStart(2, "0")`). -/
def pad2 (n : Nat) : String :=
  if n < 10 then "0" ++ toString n else toString n

/-- Embedding of `addDays(base, offset)` (page.tsx 41-49 / part_001 39-47):
parse `"YYYY-MM-DD"` (with the `(m || 1)` / `(d || 1)` fallbacks of the
source), add `offset` days by local-time calendar arithmetic, and format
the result as `"YYYY-MM-DD"` with zero-padded month and day. -/
def addDays (base : String) (offset : Int) : String :=
  let parts := (splitDash base.data []).map parseNatChars
  let y := parts.getD 0 0
  let m0 := parts.getD 1 0
  let d0 := parts.getD 2 0
  let m := if m0 = 0 then 1 else m0
  let d := if d0 = 0 then 1 else d0
  let z : Int := (daysFromCivil y m d : Int) + offset
  let c := civilFromDays z.toNat
  toString c.1 ++ "-" ++ pad2 c.2.1 ++ "-" ++ pad2 c.2.2

/-! Grouping machinery shared by both variants' `groupedByDate`
(`Map` insertion preserving key order, then `.sort` on the entries). -/

/-- One step of the `Map`-building loop of `groupedByDate`:
`const arr = map.get(todo.date) ?? []; arr.push(todo); map.set(todo.date, arr)`.
A JS `Map` keeps keys in first-insertion order, so it is modelled as an
association list; an existing group gets `t` appended, otherwise a new
group is appended at the end. -/
def upsert {α : Type} (d : String) (t : α) :
    List (String × List α) → List (String × List α)
  | [] => [(d, [t])]
  | (k, l) :: rest =>
    if k = d then (k, l ++ [t]) :: rest else (k, l) :: upsert d t rest

/-- The `for (const todo of todos)` loop of `groupedByDate`: fold the
collection into date-keyed groups. -/
def groupPairs {α : Type} (date : α → String) (todos : List α) :
    List (String × List α) :=
  todos.foldl (fun acc t => upsert (date t) t acc) []

/-- Insert into a sorted list using a boolean `lt` (one step of the model
of `Array.prototype.sort` with a two-outcome comparator). -/
def insertBy {α : Type} (lt : α → α → Bool) (p : α) : List α → List α
  | [] => [p]
  | q :: rest => if lt p q then p :: q :: rest else q :: insertBy lt p rest

/-- Insertion sort with a boolean `lt`, the model of
`Array.from(map.entries()).sort(comparator)` (a stable comparison sort). -/
def sortBy {α : Type} (lt : α → α → Bool) : List α → List α
  | [] => []
  | p :: rest => insertBy lt p (sortBy lt rest)

namespace LocalApp

/-- The `Todo` interface of `src/unnamed/part_001` (lines 7-17):
numeric timestamp id, optional notes. -/
structure Todo where
  id : Nat
  text : String
  completed : Bool
  date : String
  createdAt : String
  priority : Priority
  notes : Option String
deriving DecidableEq, Repr

/-- `addTodo` (part_001 lines 92-112).  Ambient values are explicit
parameters: `nowTime` is `now.getTime()`, `nowIso` is `now.toISOString()`,
`today` is `getTodayISODate()`.  If the input trims to empty the state is
returned unchanged; otherwise the new record is prepended. -/
def addTodo (todos : List Todo) (input notes : String) (priority : Priority)
    (selectedDate today : String) (nowTime : Nat) (nowIso : String) : List Todo :=
  let text := jsTrim input
  if text = "" then todos
  else
    { id := nowTime
      text := text
      completed := false
      date := if selectedDate = "" then today else selectedDate
      createdAt := nowIso
      priority := priority
      notes := if jsTrim notes = "" then none else some (jsTrim notes) } :: todos

/-- `toggleTodo(id)` (part_001 lines 114-120): flip `completed` on every
record whose id matches. -/
def toggleTodo (id : Nat) (todos : List Todo) : List Todo :=
  todos.map fun t => if t.id = id then { t with completed := !t.completed } else t

/-- `deleteTodo(id)` (part_001 lines 122-124). -/
def deleteTodo (id : Nat) (todos : List Todo) : List Todo :=
  todos.filter fun t => t.id != id

/-- `clearCompleted()` (part_001 lines 126-128). -/
def clearCompleted (todos : List Todo) : List Todo :=
  todos.filter fun t => !t.completed

/-- `remainingCount` (part_001 lines 130-133). -/
def remainingCount (todos : List Todo) (selectedDate : String) : Nat :=
  (todos.filter fun t => t.date == selectedDate && !t.completed).length

/-- `groupedByDate` (part_001 lines 135-144): group by `date`, then sort
the date entries descending (`a < b ? 1 : -1`). -/
def groupedByDate (todos : List Todo) : List (String × List Todo) :=
  sortBy (fun a b => strLt b.1 a.1) (groupPairs Todo.date todos)

end LocalApp

namespace CloudApp

/-- The `TodoRow` interface of `src/src/app/page.tsx` (lines 10-19):
string ids assigned by the row store, `notes: string | null`. -/
structure TodoRow where
  id : String
  user_id : String
  date : String
  text : String
  completed : Bool
  created_at : String
  priority : Priority
  notes : Option String
deriving DecidableEq, Repr

/-- The `useState` values of the `Home` component that the task-list
operations read or write. -/
structure AppState where
  sessionUserId : Option String
  authMessage : Option String
  todos : List TodoRow
  editingId : Option String
  editText : String
  editNotes : String
  editPriority : Priority
  input : String
  notes : String
  priority : Priority
  selectedDate : String
deriving DecidableEq, Repr

/-- `addTodo` (page.tsx lines 316-369).  `dev` selects the
`NODE_ENV === "development"` branch.  `today` is `getTodayISODate()`;
`genId`/`nowIso` are the id and timestamp of the new row
(`crypto.randomUUID()` / `new Date().toISOString()` in dev mode,
backend-assigned on a successful insert, whose echo carries the inserted
fields plus those assigned values); `backendOk` is whether the production
insert succeeded. -/
def addTodo (dev : Bool) (s : AppState) (today genId nowIso : String)
    (backendOk : Bool) : AppState :=
  match s.sessionUserId with
  | none => { s with authMessage := some "Please sign in first to save tasks in the cloud." }
  | some uid =>
    let text := jsTrim s.input
    if text = "" then s
    else
      let isoDate := if s.selectedDate = "" then today else s.selectedDate
      let newTodo : TodoRow :=
        { id := genId
          user_id := uid
          date := isoDate
          text := text
          completed := false
          created_at := nowIso
          priority := s.priority
          notes := if jsTrim s.notes = "" then none else some (jsTrim s.notes) }
      if dev then { s with todos := newTodo :: s.todos, input := "", notes := "" }
      else if backendOk then { s with todos := newTodo :: s.todos, input := "", notes := "" }
      else { s with authMessage := some "Could not save task. Try again." }

/-- `toggleTodo(id, completed)` (page.tsx lines 371-396).  `completed` is
the value read from the clicked row.  In production the backend update is
issued first; on error the handler only logs (`console.error`) and
returns, on success the returned row replaces the matching record. -/
def toggleTodo (dev : Bool) (s : AppState) (id : String) (completed : Bool)
    (backend : Except String TodoRow) : AppState :=
  if dev then
    { s with todos := s.todos.map fun t =>
        if t.id = id then { t with completed := !completed } else t }
  else
    match backend with
    | .error _ => s
    | .ok row => { s with todos := s.todos.map fun t => if t.id = id then row else t }

/-- The optimistic removal of `deleteTodo` (page.tsx line 400): the
collection state set before the backend delete is issued. -/
def deleteTodoOptimistic (todos : List TodoRow) (id : String) : List TodoRow :=
  todos.filter fun t => t.id != id

/-- `deleteTodo(id)` (page.tsx lines 398-415): remove optimistically, then
in production roll back to the captured `prev` if the backend delete
fails. -/
def deleteTodo (dev : Bool) (s : AppState) (id : String) (backendOk : Bool) :
    AppState :=
  let updated := deleteTodoOptimistic s.todos id
  if dev then { s with todos := updated }
  else if backendOk then { s with todos := updated }
  else s

/-- `updateTodo(id, text, notes, priority)` (page.tsx lines 417-444).
No validation is performed on `text`; the matching record's `text`,
`notes` (trimmed, empty normalized to null) and `priority` are
overwritten and edit mode is exited. -/
def updateTodo (dev : Bool) (s : AppState) (id : String) (text notes : String)
    (priority : Priority) (backend : Except String TodoRow) : AppState :=
  if dev then
    { s with
      todos := s.todos.map fun t =>
        if t.id = id then
          { t with
            text := text
            notes := if jsTrim notes = "" then none else some (jsTrim notes)
            priority := priority }
        else t
      editingId := none }
  else
    match backend with
    | .error _ => s
    | .ok row =>
      { s with
        todos := s.todos.map fun t => if t.id = id then row else t
        editingId := none }

/-- The Save control of the edit form (page.tsx lines 930-936): it is
rendered with `disabled={!editText.trim()}`, so a save attempt is a no-op
when the edit text trims to empty and otherwise invokes
`updateTodo(todo.id, editText, editNotes, editPriority)`. -/
def saveEdit (dev : Bool) (s : AppState) (id : String)
    (backend : Except String TodoRow) : AppState :=
  if jsTrim s.editText = "" then s
  else updateTodo dev s id s.editText s.editNotes s.editPriority backend

/-- `moveTodo(id, newDate)` (page.tsx lines 446-471). -/
def moveTodo (dev : Bool) (s : AppState) (id newDate : String)
    (backend : Except String TodoRow) : AppState :=
  if dev then
    { s with todos := s.todos.map fun t =>
        if t.id = id then { t with date := newDate } else t }
  else
    match backend with
    | .error _ => s
    | .ok row => { s with todos := s.todos.map fun t => if t.id = id then row else t }

/-- The optimistic removal of `clearCompleted` (page.tsx line 491). -/
def clearCompletedOptimistic (todos : List TodoRow) : List TodoRow :=
  todos.filter fun t => !t.completed

/-- `clearCompleted()` (page.tsx lines 487-509): compute the completed
ids, return unchanged if there are none, otherwise remove them all
optimistically and in production roll back to `prev` if the bulk backend
delete fails. -/
def clearCompleted (dev : Bool) (s : AppState) (backendOk : Bool) : AppState :=
  let completedIds := (s.todos.filter fun t => t.completed).map fun t => t.id
  if completedIds.isEmpty then s
  else
    let updated := clearCompletedOptimistic s.todos
    if dev then { s with todos := updated }
    else if backendOk then { s with todos := updated }
    else s

/-- `remainingCount` (page.tsx lines 299-302). -/
def remainingCount (s : AppState) : Nat :=
  (s.todos.filter fun t => t.date == s.selectedDate && !t.completed).length

/-- `groupedByDate` (page.tsx lines 304-313): group by `date`, then sort
the date entries ascending (`a < b ? -1 : 1`). -/
def groupedByDate (todos : List TodoRow) : List (String × List TodoRow) :=
  sortBy (fun a b => strLt a.1 b.1) (groupPairs TodoRow.date todos)

end CloudApp

/-! Helper lemmas. -/

/-- Mapping a keyed conditional update over a list containing no record
with the key is the identity. -/
theorem map_ite_eq_of_absent {α β : Type} [DecidableEq β] (key : α → β) (k : β)
    (f : α → α) (l : List α) (h : ∀ a ∈ l, key a ≠ k) :
    (l.map fun a => if key a = k then f a else a) = l := by
  induction l with
  | nil => rfl
  | cons x xs ih =>
    rw [List.map_cons, if_neg (h x (List.mem_cons_self x xs)),
      ih fun a ha => h a (List.mem_cons_of_mem x ha)]

/-- Filtering out a key that no record carries is the identity. -/
theorem filter_bne_eq_of_absent {α β : Type} [DecidableEq β] (key : α → β) (k : β)
    (l : List α) (h : ∀ a ∈ l, key a ≠ k) :
    (l.filter fun a => key a != k) = l := by
  rw [List.filter_eq_self]
  intro a ha
  simpa using h a ha

/-- A pointwise-identity function maps any list to itself. -/
theorem map_pointwise_id {α : Type} (f : α → α) (l : List α) (h : ∀ a, f a = a) :
    l.map f = l := by
  induction l with
  | nil => rfl
  | cons x xs ih => rw [List.map_cons, h, ih]

/-- A function that fixes every member maps the list to itself. -/
theorem map_pointwise_id_of_mem {α : Type} (f : α → α) (l : List α)
    (h : ∀ a ∈ l, f a = a) : l.map f = l := by
  induction l with
  | nil => rfl
  | cons x xs ih =>
    rw [List.map_cons, h x (List.mem_cons_self x xs),
      ih fun a ha => h a (List.mem_cons_of_mem x ha)]

/-- Flipping the matched record's `completed` twice is the identity on
each record. -/
theorem toggleOne_involutive (id : Nat) (t : LocalApp.Todo) :
    ((fun t : LocalApp.Todo =>
        if t.id = id then { t with completed := !t.completed } else t) ∘
      fun t : LocalApp.Todo =>
        if t.id = id then { t with completed := !t.completed } else t) t = t := by
  cases t with
  | mk tid ttext tcomp tdate tcreated tprio tnotes =>
    by_cases h : tid = id <;> simp [h]

/-- `toggleTodo id` is an involution on the whole collection. -/
theorem toggleTodo_involutive (id : Nat) (todos : List LocalApp.Todo) :
    LocalApp.toggleTodo id (LocalApp.toggleTodo id todos) = todos := by
  unfold LocalApp.toggleTodo
  rw [List.map_map]
  exact map_pointwise_id _ todos (toggleOne_involutive id)

/-- If no record is completed then removing the completed ones changes
nothing. -/
theorem filter_not_completed_eq_of_none (todos : List CloudApp.TodoRow)
    (h : ((todos.filter fun t => t.completed).map fun t => t.id).isEmpty = true) :
    (todos.filter fun t => !t.completed) = todos := by
  rw [List.isEmpty_iff, List.map_eq_nil_iff, List.filter_eq_nil_iff] at h
  rw [List.filter_eq_self]
  intro a ha
  simpa using h a ha

/-! Partition lemmas for the grouping step of `groupedByDate`. -/

/-- Unfolding: `upsert` into the empty accumulator. -/
theorem upsert_nil {α : Type} (d : String) (t : α) :
    upsert d t ([] : List (String × List α)) = [(d, [t])] := rfl

/-- Unfolding: `upsert` into a matching head group appends to it. -/
theorem upsert_cons_pos {α : Type} (d : String) (t : α) (k : String)
    (l : List α) (rest : List (String × List α)) (h : k = d) :
    upsert d t ((k, l) :: rest) = (k, l ++ [t]) :: rest := by
  simp [upsert, h]

/-- Unfolding: `upsert` past a non-matching head group. -/
theorem upsert_cons_neg {α : Type} (d : String) (t : α) (k : String)
    (l : List α) (rest : List (String × List α)) (h : ¬k = d) :
    upsert d t ((k, l) :: rest) = (k, l) :: upsert d t rest := by
  simp [upsert, h]

/-- The keys after an `upsert` are the old keys, plus `d` if it was new. -/
theorem upsert_fst_mem {α : Type} (d : String) (t : α)
    (acc : List (String × List α)) (x : String) :
    x ∈ (upsert d t acc).map Prod.fst ↔ x ∈ acc.map Prod.fst ∨ x = d := by
  induction acc with
  | nil =>
    rw [upsert_nil]
    simp
  | cons p rest ih =>
    obtain ⟨k, l⟩ := p
    by_cases h : k = d
    · subst h
      rw [upsert_cons_pos _ _ _ _ _ rfl]
      simp only [List.map_cons, List.mem_cons]
      tauto
    · rw [upsert_cons_neg _ _ _ _ _ h]
      simp only [List.map_cons, List.mem_cons, ih]
      tauto

/-- `upsert` preserves distinctness of the group keys. -/
theorem upsert_keys_nodup {α : Type} (d : String) (t : α)
    (acc : List (String × List α)) (h : (acc.map Prod.fst).Nodup) :
    ((upsert d t acc).map Prod.fst).Nodup := by
  induction acc with
  | nil =>
    rw [upsert_nil]
    simp
  | cons p rest ih =>
    obtain ⟨k, l⟩ := p
    rw [List.map_cons, List.nodup_cons] at h
    by_cases hk : k = d
    · subst hk
      rw [upsert_cons_pos _ _ _ _ _ rfl, List.map_cons, List.nodup_cons]
      exact h
    · rw [upsert_cons_neg _ _ _ _ _ hk, List.map_cons, List.nodup_cons]
      refine ⟨?_, ih h.2⟩
      rw [upsert_fst_mem]
      rintro (hc | hc)
      · exact h.1 hc
      · exact hk hc

/-- `upsert` keeps every group keyed by its members' own date. -/
theorem upsert_wellKeyed {α : Type} (date : α → String) (d : String) (t : α)
    (acc : List (String × List α))
    (hacc : ∀ p ∈ acc, ∀ x ∈ p.2, date x = p.1) (ht : date t = d) :
    ∀ p ∈ upsert d t acc, ∀ x ∈ p.2, date x = p.1 := by
  induction acc with
  | nil =>
    intro p hp x hx
    rw [upsert_nil, List.mem_singleton] at hp
    subst hp
    rw [List.mem_singleton] at hx
    subst hx
    exact ht
  | cons q rest ih =>
    obtain ⟨k, l⟩ := q
    have hhead := hacc (k, l) (List.mem_cons_self _ _)
    have htail : ∀ p ∈ rest, ∀ x ∈ p.2, date x = p.1 :=
      fun p hp => hacc p (List.mem_cons_of_mem _ hp)
    by_cases hk : k = d
    · subst hk
      intro p hp x hx
      rw [upsert_cons_pos _ _ _ _ _ rfl, List.mem_cons] at hp
      rcases hp with hp | hp
      · subst hp
        rcases List.mem_append.1 hx with hxl | hxt
        · exact hhead x hxl
        · rw [List.mem_singleton] at hxt
          subst hxt
          exact ht
      · exact htail p hp x hx
    · intro p hp x hx
      rw [upsert_cons_neg _ _ _ _ _ hk, List.mem_cons] at hp
      rcases hp with hp | hp
      · subst hp
        exact hhead x hx
      · exact ih htail p hp x hx

/-- An `upsert` adds exactly `t` to the multiset of grouped members. -/
theorem upsert_flatten_perm {α : Type} (d : String) (t : α)
    (acc : List (String × List α)) :
    ((upsert d t acc).map Prod.snd).flatten.Perm
      (t :: (acc.map Prod.snd).flatten) := by
  induction acc with
  | nil =>
    rw [upsert_nil]
    simp
  | cons q rest ih =>
    obtain ⟨k, l⟩ := q
    by_cases hk : k = d
    · subst hk
      rw [upsert_cons_pos _ _ _ _ _ rfl, List.map_cons, List.flatten_cons,
        List.map_cons, List.flatten_cons, List.append_assoc]
      exact List.perm_middle
    · rw [upsert_cons_neg _ _ _ _ _ hk, List.map_cons, List.flatten_cons,
        List.map_cons, List.flatten_cons]
      exact (List.Perm.append_left l ih).trans List.perm_middle

/-- The grouping fold keeps groups keyed by their members' own date. -/
theorem groupPairs_wellKeyed_aux {α : Type} (date : α → String) (todos : List α)
    (acc : List (String × List α)) (h : ∀ p ∈ acc, ∀ x ∈ p.2, date x = p.1) :
    ∀ p ∈ todos.foldl (fun acc t => upsert (date t) t acc) acc,
      ∀ x ∈ p.2, date x = p.1 := by
  induction todos generalizing acc with
  | nil => exact h
  | cons t ts ih =>
    exact ih (upsert (date t) t acc) (upsert_wellKeyed date (date t) t acc h rfl)

/-- The grouping fold keeps the group keys distinct. -/
theorem groupPairs_nodup_aux {α : Type} (date : α → String) (todos : List α)
    (acc : List (String × List α)) (h : (acc.map Prod.fst).Nodup) :
    ((todos.foldl (fun acc t => upsert (date t) t acc) acc).map Prod.fst).Nodup := by
  induction todos generalizing acc with
  | nil => exact h
  | cons t ts ih =>
    exact ih (upsert (date t) t acc) (upsert_keys_nodup (date t) t acc h)

/-- The grouping fold's grouped members are a permutation of the
accumulator's members followed by the folded records. -/
theorem groupPairs_flatten_perm_aux {α : Type} (date : α → String)
    (todos : List α) (acc : List (String × List α)) :
    ((todos.foldl (fun acc t => upsert (date t) t acc) acc).map Prod.snd).flatten.Perm
      ((acc.map Prod.snd).flatten ++ todos) := by
  induction todos generalizing acc with
  | nil => simp
  | cons t ts ih =>
    have h1 := ih (upsert (date t) t acc)
    have h2 : (((upsert (date t) t acc).map Prod.snd).flatten ++ ts).Perm
        ((t :: (acc.map Prod.snd).flatten) ++ ts) :=
      (upsert_flatten_perm (date t) t acc).append_right ts
    have h3 : ((t :: (acc.map Prod.snd).flatten) ++ ts).Perm
        ((acc.map Prod.snd).flatten ++ t :: ts) := List.perm_middle.symm
    exact (h1.trans h2).trans h3

/-- `insertBy` only rearranges: the result is a permutation of the
element put in front of the list. -/
theorem insertBy_perm {α : Type} (lt : α → α → Bool) (p : α) (l : List α) :
    (insertBy lt p l).Perm (p :: l) := by
  induction l with
  | nil => exact List.Perm.refl _
  | cons q rest ih =>
    by_cases h : lt p q = true
    · rw [insertBy, if_pos h]
    · rw [insertBy, if_neg h]
      exact (ih.cons q).trans (List.Perm.swap p q rest)

/-- `sortBy` permutes its input. -/
theorem sortBy_perm {α : Type} (lt : α → α → Bool) (l : List α) :
    (sortBy lt l).Perm l := by
  induction l with
  | nil => exact List.Perm.refl _
  | cons p rest ih =>
    exact (insertBy_perm lt p (sortBy lt rest)).trans (ih.cons p)

/-- Sorted grouping is a partition: every group is keyed by its members'
own date, keys are distinct, and the grouped members are a permutation of
the original collection. -/
theorem sortBy_groupPairs_partition {α : Type} (date : α → String)
    (lt : (String × List α) → (String × List α) → Bool) (todos : List α) :
    (∀ p ∈ sortBy lt (groupPairs date todos), ∀ x ∈ p.2, date x = p.1)
    ∧ ((sortBy lt (groupPairs date todos)).map Prod.fst).Nodup
    ∧ ((sortBy lt (groupPairs date todos)).map Prod.snd).flatten.Perm todos := by
  have hperm : (sortBy lt (groupPairs date todos)).Perm (groupPairs date todos) :=
    sortBy_perm lt (groupPairs date todos)
  refine ⟨?_, ?_, ?_⟩
  · intro p hp
    exact groupPairs_wellKeyed_aux date todos [] (by simp) p (hperm.mem_iff.1 hp)
  · exact (hperm.map Prod.fst).nodup_iff.2 (groupPairs_nodup_aux date todos [] (by simp))
  · have h1 : ((sortBy lt (groupPairs date todos)).map Prod.snd).flatten.Perm
        ((groupPairs date todos).map Prod.snd).flatten :=
      (hperm.map Prod.snd).flatten
    have h2 := groupPairs_flatten_perm_aux date todos []
    simpa using h1.trans h2

/-! Concrete values used by witnesses and counterexamples. -/

/-- Concrete cloud row. -/
def sampleRow : CloudApp.TodoRow :=
  { id := "a", user_id := "u", date := "2026-02-05", text := "write spec",
    completed := false, created_at := "t0", priority := .medium, notes := none }

/-- Concrete cloud app state holding `sampleRow` and no pending message. -/
def sampleState : CloudApp.AppState :=
  { sessionUserId := some "u", authMessage := none, todos := [sampleRow],
    editingId := none, editText := "", editNotes := "", editPriority := .medium,
    input := "", notes := "", priority := .medium, selectedDate := "2026-02-05" }

/-- Concrete cloud app state with a non-empty draft input and no selected
date. -/
def addState : CloudApp.AppState :=
  { sampleState with input := " a ", selectedDate := "" }

/-- Concrete cloud row with a known text, target of an edit. -/
def editRow : CloudApp.TodoRow :=
  { id := "a", user_id := "u", date := "2026-02-05", text := "old text",
    completed := false, created_at := "t0", priority := .medium, notes := none }

/-- Concrete cloud app state in edit mode with empty edit text. -/
def editState : CloudApp.AppState :=
  { sessionUserId := some "u", authMessage := none, todos := [editRow],
    editingId := some "a", editText := "", editNotes := "", editPriority := .medium,
    input := "", notes := "", priority := .medium, selectedDate := "2026-02-05" }

/-- Concrete local-variant task. -/
def sampleLTodo : LocalApp.Todo :=
  { id := 1, text := "walk", completed := false, date := "2026-02-05",
    createdAt := "t0", priority := .low, notes := none }

/-! Claim theorems. -/

/-- Claim C1: `remove(id)` and `clearCompleted()` are atomic against
backend failure.  The successful production delete leaves exactly the
optimistic removal (so the records were removed before the backend call
resolved), and on backend failure both operations restore the state to
its exact pre-operation value — the whole removed record, respectively
the whole removed set with no partial rollback. -/
theorem delete_clear_atomic_rollback (s : CloudApp.AppState) (id : String) :
    CloudApp.deleteTodo false s id false = s
    ∧ (CloudApp.deleteTodo false s id true).todos =
        CloudApp.deleteTodoOptimistic s.todos id
    ∧ CloudApp.clearCompleted false s false = s
    ∧ (CloudApp.clearCompleted false s true).todos =
        CloudApp.clearCompletedOptimistic s.todos := by
  refine ⟨rfl, rfl, ?_, ?_⟩
  · simp only [CloudApp.clearCompleted]
    split
    · rfl
    · rfl
  · simp only [CloudApp.clearCompleted]
    by_cases h : ((s.todos.filter fun t => t.completed).map fun t => t.id).isEmpty = true
    · rw [if_pos h]
      exact (filter_not_completed_eq_of_none s.todos h).symm
    · rw [if_neg h]
      rfl

/-- Claim C2 counterexample: a failed production toggle does not surface
any user-visible message.  In the concrete state the message slot is
empty before the call and still empty after the backend rejects the
write (the handler only logs to the console); the collection itself is
unchanged. -/
theorem toggle_fail_no_user_message :
    sampleState.authMessage = none
    ∧ (CloudApp.toggleTodo false sampleState "a" false
        (Except.error "backend rejected")).authMessage = none
    ∧ (CloudApp.toggleTodo false sampleState "a" false
        (Except.error "backend rejected")).todos = sampleState.todos :=
  ⟨rfl, rfl, rfl⟩

/-- Claim C2 (amended): when the backend rejects a toggle write, the
whole state — in particular every record's `completed` field — is exactly
its pre-call value (the flip is never applied locally), but the failure
is only logged; no user-visible message is set. -/
theorem toggle_fail_state_unchanged (s : CloudApp.AppState) (id : String)
    (completed : Bool) (e : String) :
    CloudApp.toggleTodo false s id completed (Except.error e) = s := rfl

/-- Claim C3: for a non-empty trimmed input (and, in the cloud variant,
a signed-in owner and a successful backend insert), `add` prepends
exactly one new record with the trimmed text, the selected date (today's
date when none is selected) and `completed = false`, leaving every
previous record unchanged, and the collection grows by exactly one. -/
theorem addTodo_prepends (ltodos : List LocalApp.Todo) (input notes : String)
    (p : Priority) (selD today : String) (nowTime : Nat) (nowIso : String)
    (s : CloudApp.AppState) (uid ctoday genId cNowIso : String)
    (h1 : jsTrim input ≠ "") (h2 : s.sessionUserId = some uid)
    (h3 : jsTrim s.input ≠ "") :
    LocalApp.addTodo ltodos input notes p selD today nowTime nowIso =
      { id := nowTime, text := jsTrim input, completed := false,
        date := if selD = "" then today else selD, createdAt := nowIso,
        priority := p,
        notes := if jsTrim notes = "" then none else some (jsTrim notes) } :: ltodos
    ∧ (CloudApp.addTodo false s ctoday genId cNowIso true).todos =
      { id := genId, user_id := uid,
        date := if s.selectedDate = "" then ctoday else s.selectedDate,
        text := jsTrim s.input, completed := false, created_at := cNowIso,
        priority := s.priority,
        notes := if jsTrim s.notes = "" then none else some (jsTrim s.notes) } :: s.todos
    ∧ (CloudApp.addTodo false s ctoday genId cNowIso true).todos.length =
        s.todos.length + 1 := by
  have hcloud : (CloudApp.addTodo false s ctoday genId cNowIso true).todos =
      { id := genId, user_id := uid,
        date := if s.selectedDate = "" then ctoday else s.selectedDate,
        text := jsTrim s.input, completed := false, created_at := cNowIso,
        priority := s.priority,
        notes := if jsTrim s.notes = "" then none else some (jsTrim s.notes) } :: s.todos := by
    simp only [CloudApp.addTodo, h2]
    rw [if_neg h3]
    rfl
  refine ⟨?_, hcloud, ?_⟩
  · simp only [LocalApp.addTodo]
    rw [if_neg h1]
  · rw [hcloud, List.length_cons]

/-- Witness for C3 at a concrete state. -/
theorem addTodo_prepends_witness :
    jsTrim " a " ≠ ""
    ∧ addState.sessionUserId = some "u"
    ∧ jsTrim addState.input ≠ ""
    ∧ (CloudApp.addTodo false addState "2026-02-05" "g" "t1" true).todos.length =
        addState.todos.length + 1 :=
  ⟨by decide, rfl, by decide,
    (addTodo_prepends [] " a " "" Priority.medium "" "d" 1 "ts" addState "u"
      "2026-02-05" "g" "t1" (by decide) rfl (by decide)).2.2⟩

/-- Claim C4: `add` with input that trims to empty leaves the task
collection entirely unchanged, in both the local variant and the cloud
variant (for every dev/backend outcome and session state). -/
theorem addTodo_empty_noop (ltodos : List LocalApp.Todo) (input notes : String)
    (p : Priority) (selD today : String) (nowTime : Nat) (nowIso : String)
    (s : CloudApp.AppState) (dev : Bool) (ctoday genId cNowIso : String)
    (backendOk : Bool) (h1 : jsTrim input = "") (h2 : jsTrim s.input = "") :
    LocalApp.addTodo ltodos input notes p selD today nowTime nowIso = ltodos
    ∧ (CloudApp.addTodo dev s ctoday genId cNowIso backendOk).todos = s.todos := by
  constructor
  · simp only [LocalApp.addTodo]
    rw [if_pos h1]
  · simp only [CloudApp.addTodo]
    cases hsu : s.sessionUserId with
    | none => rfl
    | some uid => simp [h2]

/-- Witness for C4 at a concrete state. -/
theorem addTodo_empty_noop_witness :
    jsTrim "   " = ""
    ∧ jsTrim sampleState.input = ""
    ∧ (CloudApp.addTodo false sampleState "d" "g" "t" true).todos = sampleState.todos :=
  ⟨by decide, by decide,
    (addTodo_empty_noop [] "   " "" Priority.medium "" "d" 1 "ts" sampleState
      false "d" "g" "t" true (by decide) (by decide)).2⟩

/-- Claim C5 counterexample: `updateTodo` performs no empty-text
validation.  Invoked directly with text `""` on a record whose text is
`"old text"`, the dev-variant update overwrites the stored record's text
with the empty string — contradicting that an empty-text edit fails with
a `ValidationError` and leaves the record's text unchanged. -/
theorem updateTodo_empty_text_writes :
    editRow.text = "old text"
    ∧ ((CloudApp.updateTodo true editState "a" "" "" Priority.medium
        (Except.error "unused")).todos.map CloudApp.TodoRow.text) = [""] :=
  ⟨rfl, by decide⟩

/-- Claim C5 (amended): the empty-text guard lives in the UI, not in
`updateTodo`: the Save control is disabled when the edit text trims to
empty, so a save attempt is a complete no-op — no backend write is
performed and the stored record (in particular its text) is unchanged. -/
theorem saveEdit_empty_noop (dev : Bool) (s : CloudApp.AppState) (id : String)
    (backend : Except String CloudApp.TodoRow) (h : jsTrim s.editText = "") :
    CloudApp.saveEdit dev s id backend = s := by
  simp only [CloudApp.saveEdit]
  rw [if_pos h]

/-- Witness for the amended C5 at a concrete state. -/
theorem saveEdit_empty_noop_witness :
    jsTrim editState.editText = ""
    ∧ CloudApp.saveEdit true editState "a" (Except.error "unused") = editState :=
  ⟨by decide, saveEdit_empty_noop true editState "a" (Except.error "unused") (by decide)⟩

/-- Claim C6: a successful `clearCompleted` removes exactly the records
whose `completed` is true at call time: in both variants a record is in
the result iff it was present and not completed, the local result is a
sublist of the input (remaining records are untouched and keep their
order), and the cloud result equals the completed-filtered collection
for every dev-mode flag. -/
theorem clearCompleted_exact (ltodos : List LocalApp.Todo)
    (s : CloudApp.AppState) (dev : Bool) :
    (∀ t, t ∈ LocalApp.clearCompleted ltodos ↔ t ∈ ltodos ∧ t.completed = false)
    ∧ (LocalApp.clearCompleted ltodos).Sublist ltodos
    ∧ (CloudApp.clearCompleted dev s true).todos =
        s.todos.filter (fun t => !t.completed)
    ∧ (∀ t, t ∈ (CloudApp.clearCompleted dev s true).todos ↔
        t ∈ s.todos ∧ t.completed = false) := by
  have hcloud : (CloudApp.clearCompleted dev s true).todos =
      s.todos.filter (fun t => !t.completed) := by
    simp only [CloudApp.clearCompleted]
    by_cases h : ((s.todos.filter fun t => t.completed).map fun t => t.id).isEmpty = true
    · rw [if_pos h]
      exact (filter_not_completed_eq_of_none s.todos h).symm
    · rw [if_neg h]
      cases dev
      · rfl
      · rfl

  refine ⟨?_, List.filter_sublist ltodos, hcloud, ?_⟩
  · intro t
    simp [LocalApp.clearCompleted, List.mem_filter]
  · intro t
    rw [hcloud]
    simp [List.mem_filter]

/-- Claim C7: `groupedByDate` is a partition in both variants: every
group is keyed by its members' own `date`, the group keys are pairwise
distinct (each task's group is unique), and the concatenation of all
groups' members is a permutation of the full collection — the multiset
union has no duplicates and no omissions. -/
theorem groupedByDate_partition (ctodos : List CloudApp.TodoRow)
    (ltodos : List LocalApp.Todo) :
    ((∀ p ∈ CloudApp.groupedByDate ctodos, ∀ t ∈ p.2, t.date = p.1)
      ∧ ((CloudApp.groupedByDate ctodos).map Prod.fst).Nodup
      ∧ ((CloudApp.groupedByDate ctodos).map Prod.snd).flatten.Perm ctodos)
    ∧ ((∀ p ∈ LocalApp.groupedByDate ltodos, ∀ t ∈ p.2, t.date = p.1)
      ∧ ((LocalApp.groupedByDate ltodos).map Prod.fst).Nodup
      ∧ ((LocalApp.groupedByDate ltodos).map Prod.snd).flatten.Perm ltodos) :=
  ⟨sortBy_groupPairs_partition CloudApp.TodoRow.date _ ctodos,
   sortBy_groupPairs_partition LocalApp.Todo.date _ ltodos⟩

/-- Claim C8: toggling a present task twice, with both applications
succeeding, returns its `completed` to the original value and leaves the
whole collection equal to its starting state — unconditionally in the
local variant (whose toggles cannot fail), and in the cloud production
variant where each successful toggle write makes the backend echo the
stored row with `completed` set to the negation of the passed value (the
UI passes the clicked record's current value, so the first call's echo
flips `t` and the second call's echo flips it back), given the
data-model invariant that `t.id` identifies `t` uniquely in the
collection. -/
theorem toggleTodo_twice (ltodos : List LocalApp.Todo) (lt : LocalApp.Todo)
    (_h1 : lt ∈ ltodos) (s : CloudApp.AppState) (t : CloudApp.TodoRow)
    (_h2 : t ∈ s.todos) (hid : ∀ u ∈ s.todos, u.id = t.id → u = t) :
    LocalApp.toggleTodo lt.id (LocalApp.toggleTodo lt.id ltodos) = ltodos
    ∧ CloudApp.toggleTodo false
        (CloudApp.toggleTodo false s t.id t.completed
          (Except.ok { t with completed := !t.completed }))
        t.id (!t.completed)
        (Except.ok { t with completed := !(!t.completed) }) = s := by
  refine ⟨toggleTodo_involutive lt.id ltodos, ?_⟩
  have hmap :
      (s.todos.map (fun u => if u.id = t.id then { t with completed := !t.completed } else u)).map
          (fun u => if u.id = t.id then { t with completed := !(!t.completed) } else u)
        = s.todos := by
    rw [List.map_map]
    apply map_pointwise_id_of_mem
    intro u hu
    simp only [Function.comp_apply]
    by_cases hc : u.id = t.id
    · rw [if_pos hc, if_pos rfl, hid u hu hc]
      simp only [Bool.not_not]
    · rw [if_neg hc, if_neg hc]
  exact (congrArg (fun l => { s with todos := l }) hmap).trans rfl

/-- Witness for C8 at a concrete collection and state. -/
theorem toggleTodo_twice_witness :
    sampleLTodo ∈ [sampleLTodo]
    ∧ sampleRow ∈ sampleState.todos
    ∧ (∀ u ∈ sampleState.todos, u.id = sampleRow.id → u = sampleRow)
    ∧ CloudApp.toggleTodo false
        (CloudApp.toggleTodo false sampleState sampleRow.id sampleRow.completed
          (Except.ok { sampleRow with completed := !sampleRow.completed }))
        sampleRow.id (!sampleRow.completed)
        (Except.ok { sampleRow with completed := !(!sampleRow.completed) }) =
      sampleState :=
  ⟨by decide, by decide, by decide,
    (toggleTodo_twice [sampleLTodo] sampleLTodo (by decide) sampleState sampleRow
      (by decide) (by decide)).2⟩

/-- Claim C9: `addDays` rolls correctly across month and year
boundaries: three days after 2026-01-30 is 2026-02-02, and one day after
2024-02-28 is 2024-02-29 (leap year). -/
theorem addDays_month_year_rollover :
    addDays "2026-01-30" 3 = "2026-02-02"
    ∧ addDays "2024-02-28" 1 = "2024-02-29" :=
  ⟨by decide, by decide⟩

/-- Claim C10: in the local-storage/dev-mode variants, operations on an
id that no record carries leave the collection unchanged: local toggle
and delete, and dev-mode update and move, all return the collection
as-is. -/
theorem missing_id_noop (ltodos : List LocalApp.Todo) (nid : Nat)
    (s : CloudApp.AppState) (sid : String) (text notes newDate : String)
    (p : Priority) (backend : Except String CloudApp.TodoRow)
    (h1 : ∀ t ∈ ltodos, t.id ≠ nid) (h2 : ∀ t ∈ s.todos, t.id ≠ sid) :
    LocalApp.toggleTodo nid ltodos = ltodos
    ∧ LocalApp.deleteTodo nid ltodos = ltodos
    ∧ (CloudApp.updateTodo true s sid text notes p backend).todos = s.todos
    ∧ (CloudApp.moveTodo true s sid newDate backend).todos = s.todos := by
  refine ⟨?_, ?_, ?_, ?_⟩
  · exact map_ite_eq_of_absent LocalApp.Todo.id nid _ ltodos h1
  · exact filter_bne_eq_of_absent LocalApp.Todo.id nid ltodos h1
  · exact map_ite_eq_of_absent CloudApp.TodoRow.id sid _ s.todos h2
  · exact map_ite_eq_of_absent CloudApp.TodoRow.id sid _ s.todos h2

/-- Witness for C10 at a concrete state and absent ids. -/
theorem missing_id_noop_witness :
    (∀ t ∈ [sampleLTodo], t.id ≠ 2)
    ∧ (∀ t ∈ sampleState.todos, t.id ≠ "b")
    ∧ (CloudApp.moveTodo true sampleState "b" "2026-02-06"
        (Except.error "unused")).todos = sampleState.todos :=
  ⟨by decide, by decide,
    (missing_id_noop [sampleLTodo] 2 sampleState "b" "x" "" "2026-02-06"
      Priority.low (Except.error "unused") (by decide) (by decide)).2.2.2⟩

end ToDoList
